import Mathlib

/-!
Verification of the Recallflow flashcard generation pipeline
(`src/utils/groq_client.py`).

Python text is embedded as `List Char`.  The JSON layer (`json.loads`)
is modelled by an executable recursive-descent reader over `List Char`;
numeric literals are modelled as integers (payloads with fractional or
exponent parts are treated as unparseable).  All stateless Python string
operations used by the source (`strip`, `find`, `rfind`, slicing,
`split`, `join`, `startswith`, substring containment) are given direct
executable counterparts.
-/

/-- Characters of a string literal. -/
def lc (s : String) : List Char := s.toList

def quoteC : Char := Char.ofNat 34

def backslashC : Char := Char.ofNat 92

def tickC : Char := Char.ofNat 96

def lbraceC : Char := Char.ofNat 123

def rbraceC : Char := Char.ofNat 125

def squoteC : Char := Char.ofNat 39

def vtabC : Char := Char.ofNat 11

def ffC : Char := Char.ofNat 12

/-- Python `str.isspace` on the ASCII whitespace characters stripped by `str.strip()`. -/
def isSpc (c : Char) : Bool :=
  c == ' ' || c == '\t' || c == '\n' || c == '\r' || c == vtabC || c == ffC

/-- Left part of Python `str.strip()`. -/
def stripL (s : List Char) : List Char := s.dropWhile isSpc

/-- Right part of Python `str.strip()`. -/
def stripR : List Char → List Char
  | [] => []
  | c :: cs =>
    match stripR cs with
    | [] => if isSpc c then [] else [c]
    | d :: r => c :: d :: r

/-- Python `str.strip()`. -/
def pyStrip (s : List Char) : List Char := stripR (stripL s)

/-- Python `str.find(sub)`: index of the first occurrence, `none` for `-1`. -/
def findSub (sub : List Char) : List Char → Option Nat
  | [] => if sub.isEmpty then some 0 else none
  | c :: cs =>
    if sub.isPrefixOf (c :: cs) then some 0 else (findSub sub cs).map (· + 1)

/-- Python `str.find(sub, start)`. -/
def findFrom (sub s : List Char) (k : Nat) : Option Nat :=
  (findSub sub (s.drop k)).map (· + k)

/-- Python `str.rfind(sub)`: index of the last occurrence, `none` for `-1`. -/
def rfindSub (sub : List Char) : List Char → Option Nat
  | [] => if sub.isEmpty then some 0 else none
  | c :: cs =>
    match rfindSub sub cs with
    | some i => some (i + 1)
    | none => if sub.isPrefixOf (c :: cs) then some 0 else none

/-- Python `sub in s` substring containment. -/
def containsSub (sub s : List Char) : Bool := (findSub sub s).isSome

/-- Python slice `s[a:b]` for natural indices. -/
def pySlice (a b : Nat) (s : List Char) : List Char := (s.drop a).take (b - a)

/-- Python `str.split('\n')`. -/
def splitOnNl : List Char → List (List Char)
  | [] => [[]]
  | c :: cs =>
    match splitOnNl cs with
    | [] => [[c]]
    | h :: t => if c == '\n' then [] :: h :: t else (c :: h) :: t

/-- Python `'\n'.join(ls)`. -/
def joinNl (ls : List (List Char)) : List Char := List.intercalate ['\n'] ls

/-- The JSON value universe produced by `json.loads`.  Numeric literals are
modelled as integers. -/
inductive Json where
  | null : Json
  | bool : Bool → Json
  | num : Int → Json
  | str : List Char → Json
  | arr : List Json → Json
  | obj : List (List Char × Json) → Json

/-- Whitespace skipped between JSON tokens. -/
def isJsonWs (c : Char) : Bool := c == ' ' || c == '\t' || c == '\n' || c == '\r'

def skipWs (s : List Char) : List Char := s.dropWhile isJsonWs

def hexVal (c : Char) : Option Nat :=
  if c.isDigit then some (c.toNat - 48)
  else if 97 ≤ c.toNat ∧ c.toNat ≤ 102 then some (c.toNat - 87)
  else if 65 ≤ c.toNat ∧ c.toNat ≤ 70 then some (c.toNat - 55)
  else none

def consFst (c : Char) (p : List Char × List Char) : List Char × List Char :=
  (c :: p.1, p.2)

/-- Reads the remainder of a JSON string literal (after the opening quote),
returning the decoded characters and the rest of the input. -/
def parseStrRest : List Char → Option (List Char × List Char)
  | [] => none
  | c :: cs =>
    if c == quoteC then some ([], cs)
    else if c == backslashC then
      match cs with
      | [] => none
      | e :: cs2 =>
        if e == quoteC then (parseStrRest cs2).map (consFst quoteC)
        else if e == backslashC then (parseStrRest cs2).map (consFst backslashC)
        else if e == '/' then (parseStrRest cs2).map (consFst '/')
        else if e == 'b' then (parseStrRest cs2).map (consFst (Char.ofNat 8))
        else if e == 'f' then (parseStrRest cs2).map (consFst ffC)
        else if e == 'n' then (parseStrRest cs2).map (consFst '\n')
        else if e == 'r' then (parseStrRest cs2).map (consFst '\r')
        else if e == 't' then (parseStrRest cs2).map (consFst '\t')
        else if e == 'u' then
          match cs2 with
          | h1 :: h2 :: h3 :: h4 :: cs3 =>
            match hexVal h1, hexVal h2, hexVal h3, hexVal h4 with
            | some a, some b, some c2, some d =>
              (parseStrRest cs3).map (consFst (Char.ofNat (a * 4096 + b * 256 + c2 * 16 + d)))
            | _, _, _, _ => none
          | _ => none
        else none
    else if c.toNat < 32 then none
    else (parseStrRest cs).map (consFst c)

def digitsVal (ds : List Char) : Nat :=
  ds.foldl (fun acc c => acc * 10 + (c.toNat - 48)) 0

/-- Reads a JSON numeric literal.  Fractional and exponent forms are outside
the model and are treated as unreadable. -/
def parseNumTok (s : List Char) : Option (Json × List Char) :=
  let neg : Bool := match s with
    | c :: _ => c == '-'
    | [] => false
  let s1 := if neg then s.tail else s
  let ds := s1.takeWhile Char.isDigit
  let rest := s1.dropWhile Char.isDigit
  if ds.isEmpty then none
  else if decide (1 < ds.length) && (ds.headI == '0') then none
  else if rest.headI == '.' || rest.headI == 'e' || rest.headI == 'E' then none
  else
    let v : Int := Int.ofNat (digitsVal ds)
    some (Json.num (if neg then -v else v), rest)

/-- CPython `dict` insertion: a repeated key keeps its original position and
takes the new value. -/
def insertKey (fs : List (List Char × Json)) (k : List Char) (v : Json) :
    List (List Char × Json) :=
  match fs with
  | [] => [(k, v)]
  | (k2, v2) :: rest =>
    if k2 == k then (k2, v) :: rest else (k2, v2) :: insertKey rest k v

def lookupKey (fs : List (List Char × Json)) (k : List Char) : Option Json :=
  match fs with
  | [] => none
  | (k2, v) :: rest => if k2 == k then some v else lookupKey rest k

mutual

def parseVal : Nat → List Char → Option (Json × List Char)
  | 0, _ => none
  | Nat.succ f, s =>
    match skipWs s with
    | [] => none
    | c :: cs =>
      if c == lbraceC then
        match skipWs cs with
        | d :: ds => if d == rbraceC then some (Json.obj [], ds) else parseMembers f (skipWs cs) []
        | [] => none
      else if c == '[' then
        match skipWs cs with
        | d :: ds => if d == ']' then some (Json.arr [], ds) else parseItems f (skipWs cs) []
        | [] => none
      else if c == quoteC then (parseStrRest cs).map (fun p => (Json.str p.1, p.2))
      else if c == 't' then
        if (lc "rue").isPrefixOf cs then some (Json.bool true, cs.drop 3) else none
      else if c == 'f' then
        if (lc "alse").isPrefixOf cs then some (Json.bool false, cs.drop 4) else none
      else if c == 'n' then
        if (lc "ull").isPrefixOf cs then some (Json.null, cs.drop 3) else none
      else parseNumTok (c :: cs)

def parseMembers : Nat → List Char → List (List Char × Json) →
    Option (Json × List Char)
  | 0, _, _ => none
  | Nat.succ f, s, acc =>
    match s with
    | [] => none
    | c :: cs =>
      if c == quoteC then
        match parseStrRest cs with
        | none => none
        | some (k, r1) =>
          match skipWs r1 with
          | [] => none
          | d :: r2 =>
            if d == ':' then
              match parseVal f r2 with
              | none => none
              | some (v, r3) =>
                match skipWs r3 with
                | [] => none
                | e :: r4 =>
                  if e == ',' then parseMembers f (skipWs r4) (insertKey acc k v)
                  else if e == rbraceC then some (Json.obj (insertKey acc k v), r4)
                  else none
            else none
      else none

def parseItems : Nat → List Char → List Json → Option (Json × List Char)
  | 0, _, _ => none
  | Nat.succ f, s, acc =>
    match parseVal f s with
    | none => none
    | some (v, r1) =>
      match skipWs r1 with
      | [] => none
      | e :: r2 =>
        if e == ',' then parseItems f r2 (acc ++ [v])
        else if e == ']' then some (Json.arr (acc ++ [v]), r2)
        else none

end

/-- `json.loads`: reads one value, allows trailing whitespace only. -/
def parseJson (s : List Char) : Option Json :=
  match parseVal (2 * s.length + 4) s with
  | some (v, rest) => if (skipWs rest).isEmpty then some v else none
  | none => none

/-- A validated question/answer pair. -/
structure Flashcard where
  question : List Char
  answer : List Char
deriving DecidableEq

def natChars (n : Nat) : List Char := Nat.toDigits 10 n

def intChars : Int → List Char
  | Int.ofNat n => natChars n
  | Int.negSucc n => '-' :: natChars (n + 1)

mutual

/-- Python `repr` on JSON values (string quoting approximated by plain
single quotes). -/
def pyRepr : Json → List Char
  | Json.null => lc "None"
  | Json.bool true => lc "True"
  | Json.bool false => lc "False"
  | Json.num i => intChars i
  | Json.str s => squoteC :: (s ++ [squoteC])
  | Json.arr xs => '[' :: (pyReprItems xs ++ [']'])
  | Json.obj fs => lbraceC :: (pyReprFields fs ++ [rbraceC])

def pyReprItems : List Json → List Char
  | [] => []
  | [x] => pyRepr x
  | x :: y :: rest => pyRepr x ++ ',' :: ' ' :: pyReprItems (y :: rest)

def pyReprFields : List (List Char × Json) → List Char
  | [] => []
  | [(k, v)] => pyRepr (Json.str k) ++ ':' :: ' ' :: pyRepr v
  | (k, v) :: f2 :: rest =>
    pyRepr (Json.str k) ++ ':' :: ' ' :: pyRepr v ++ ',' :: ' ' :: pyReprFields (f2 :: rest)

end

/-- Python `str` on JSON values. -/
def pyStr (j : Json) : List Char :=
  match j with
  | Json.str s => s
  | _ => pyRepr j

def keyQuestion : List Char := lc "question"

def keyAnswer : List Char := lc "answer"

def keyFlashcards : List Char := lc "flashcards"

def jsonFenceS : List Char := lc "```json"

def fence3S : List Char := lc "```"

def braceOpenS : List Char := [lbraceC]

def braceCloseS : List Char := [rbraceC]

/-- One iteration of the validation loop of `_parse_flashcard_response`:
append the candidate to the accumulator only if it is a dict carrying both a
`question` and an `answer` key; both values go through `str(...)` and
`.strip()`. -/
def appendValidated (acc : List Flashcard) (card : Json) : List Flashcard :=
  match card with
  | Json.obj fs =>
    if (lookupKey fs keyQuestion).isSome && (lookupKey fs keyAnswer).isSome then
      acc ++ [⟨pyStrip (pyStr ((lookupKey fs keyQuestion).getD Json.null)),
              pyStrip (pyStr ((lookupKey fs keyAnswer).getD Json.null))⟩]
    else acc
  | _ => acc

/-- The validation loop of `_parse_flashcard_response`. -/
def validateCards (cards : List Json) : List Flashcard :=
  cards.foldl appendValidated []

def isFlashcardsStr (j : Json) : Bool :=
  match j with
  | Json.str s => s == keyFlashcards
  | _ => false

/-- `parsed['flashcards'] if 'flashcards' in parsed else parsed`, with
Python's semantics of `in` and of subscripting on each value shape; `none`
models a `TypeError` caught by the enclosing handler. -/
def selectCandidates (j : Json) : Option Json :=
  match j with
  | Json.obj fs =>
    match lookupKey fs keyFlashcards with
    | some v => some v
    | none => some (Json.obj fs)
  | Json.arr xs => if xs.any isFlashcardsStr then none else some (Json.arr xs)
  | Json.str s => if containsSub keyFlashcards s then none else some (Json.str s)
  | _ => none

/-- `for card in flashcards`: lists iterate elements, dicts iterate keys,
strings iterate one-character strings; other values raise `TypeError`
(modelled as `none`). -/
def pyIterCandidates (j : Json) : Option (List Json) :=
  match j with
  | Json.arr xs => some xs
  | Json.obj fs => some (fs.map (fun kv => Json.str kv.1))
  | Json.str s => some (s.map (fun c => Json.str [c]))
  | _ => none

/-- The `json.loads` + candidate-selection + validation tail of
`_parse_flashcard_response`; every failure path yields `[]`. -/
def parseStage (s : List Char) : List Flashcard :=
  match parseJson s with
  | none => []
  | some j =>
    match selectCandidates j with
    | none => []
    | some fl =>
      match pyIterCandidates fl with
      | none => []
      | some cards => validateCards cards

def startsWithBrace (s : List Char) : Bool := braceOpenS.isPrefixOf s

/-- The markdown-fence handling block of `_parse_flashcard_response`. -/
def fenceStage (s : List Char) : List Char :=
  match findSub jsonFenceS s with
  | some i =>
    match findFrom fence3S s (i + 7) with
    | some e => pyStrip (pySlice (i + 7) e s)
    | none => s
  | none =>
    match findSub fence3S s with
    | some i =>
      match rfindSub fence3S s with
      | some e =>
        if i + 3 < e then
          let t := pyStrip (pySlice (i + 3) e s)
          match splitOnNl t with
          | [] => t
          | l0 :: rest =>
            if startsWithBrace (pyStrip l0) then t else pyStrip (joinNl rest)
        else s
      | none => s
    | none => s

/-- The brace-scanning block of `_parse_flashcard_response`. -/
def braceStage (s : List Char) : List Char :=
  if startsWithBrace s then s
  else
    match findSub braceOpenS s, rfindSub braceCloseS s with
    | some a, some b => if a < b then pySlice a (b + 1) s else s
    | _, _ => s

/-- `GroqClient._parse_flashcard_response`. -/
def parseFlashcardResponse (s : List Char) : List Flashcard :=
  parseStage (braceStage (fenceStage (pyStrip s)))

/-- `GroqClient._get_sample_flashcards`. -/
def getSampleFlashcards (topic : List Char) : List Flashcard :=
  [⟨lc "What is the main concept of " ++ topic ++ lc "?",
    lc "This is a sample answer about " ++ topic ++
      lc ". The actual content would depend on the specific topic being studied."⟩,
   ⟨lc "Why is " ++ topic ++ lc " important?",
    topic ++ lc " is important because it helps us understand key concepts and principles in this subject area."⟩,
   ⟨lc "How can you apply knowledge of " ++ topic ++ lc "?",
    lc "Knowledge of " ++ topic ++
      lc " can be applied in various practical situations and helps build understanding of related concepts."⟩]

/-- `GroqClient._create_flashcard_prompt`. -/
def createFlashcardPrompt (topic : List Char) (numFlashcards : Int) : List Char :=
  lc "Create " ++ intChars numFlashcards ++ lc " educational flashcards about \"" ++
  topic ++ lc "\". \n\nRequirements:\n- Each flashcard should have a clear, concise question and a comprehensive answer\n- Questions should test understanding, not just memorization\n- Answers should be informative but not too lengthy\n- Cover different aspects of the topic\n- Use varied question types (what, how, why, when, where)\n- Ensure questions are appropriate for learning and studying\n\nReturn the flashcards in this exact JSON format:\n\x7b\n  \"flashcards\": [\n    \x7b\n      \"question\": \"Clear, specific question about the topic\",\n      \"answer\": \"Comprehensive but concise answer\"\n    \x7d\n  ]\n\x7d\n\nTopic: " ++
  topic ++ lc "\nGenerate " ++ intChars numFlashcards ++ lc " flashcards now."

/-- `GroqClient.generate_flashcards`.  `enabled` is the client flag set at
startup; `api` is the outcome of the external chat-completion call (the raw
`message.content` text, or an exception absorbed by the `except` handler). -/
def generateFlashcards (enabled : Bool) (api : Except Unit (List Char))
    (topic : List Char) (numFlashcards : Int) : List Flashcard :=
  if enabled = false then getSampleFlashcards topic
  else
    match api with
    | Except.error _ => getSampleFlashcards topic
    | Except.ok content =>
      let respText := pyStrip content
      let cards := parseFlashcardResponse respText
      if cards.isEmpty then getSampleFlashcards topic else cards

/-- `sub` occurs as a contiguous substring of `s`. -/
def OccursIn (sub s : List Char) : Prop :=
  ∃ i, sub.isPrefixOf (s.drop i) = true

/-- Spec-side validation predicate: a candidate is kept exactly when it is a
key-value record carrying both required keys (extra keys play no role). -/
def keepsCandidate (j : Json) : Bool :=
  match j with
  | Json.obj fs => (lookupKey fs keyQuestion).isSome && (lookupKey fs keyAnswer).isSome
  | _ => false

/-- Spec-side conversion of a kept candidate: both values rendered as text and
trimmed of surrounding whitespace. -/
def toFlashcard (j : Json) : Flashcard :=
  match j with
  | Json.obj fs =>
    ⟨pyStrip (pyStr ((lookupKey fs keyQuestion).getD Json.null)),
     pyStrip (pyStr ((lookupKey fs keyAnswer).getD Json.null))⟩
  | _ => ⟨[], []⟩

/-- A JSON-labelled markdown fence around a payload. -/
def fenceWrap (p : List Char) : List Char := lc "```json\n" ++ p ++ lc "\n```"

def inputC5 : List Char :=
  lc "\x7b\"flashcards\":[\x7b\"question\":\"Q1\",\"answer\":\"A1\"\x7d,\x7b\"question\":\"Q2\"\x7d]\x7d"

def inputBlankQuestion : List Char :=
  lc "\x7b\"flashcards\": [\x7b\"question\": \" \", \"answer\": \"A\"\x7d]\x7d"

def inputTwoCards : List Char :=
  lc "\x7b\"flashcards\":[\x7b\"question\":\"Q1\",\"answer\":\"A1\"\x7d,\x7b\"question\":\"Q2\",\"answer\":\"A2\"\x7d]\x7d"

def inputNotJson : List Char := lc "not json at all"

/-- A well-formed payload whose embedded string holds a fence marker. -/
def payloadTicked : List Char :=
  lc "\x7b\"flashcards\":[\x7b\"question\":\"x```y\",\"answer\":\"c\"\x7d]\x7d"

/-- A plain well-formed payload (no backticks anywhere). -/
def payloadPlain : List Char :=
  lc "\x7b\"flashcards\":[\x7b\"question\":\"q\",\"answer\":\"a\"\x7d]\x7d"

/-- The plain payload surrounded by prose that holds fence markers. -/
def proseTicked : List Char := lc "a```b\n" ++ payloadPlain ++ lc "\nc```d"

/-- The plain payload surrounded by the prose of the spec scenario. -/
def proseWrapped : List Char := lc "Here you go:\n" ++ payloadPlain ++ lc "\nEnjoy!"

/-- A bare single flashcard object, not wrapped in an array. -/
def inputBareCard : List Char := lc "\x7b\"question\":\"Q\",\"answer\":\"A\"\x7d"

theorem findSub_cons (sub : List Char) (c : Char) (cs : List Char) :
    findSub sub (c :: cs) =
      if sub.isPrefixOf (c :: cs) then some 0 else (findSub sub cs).map (· + 1) := rfl

theorem rfindSub_cons (sub : List Char) (c : Char) (cs : List Char) :
    rfindSub sub (c :: cs) =
      match rfindSub sub cs with
      | some i => some (i + 1)
      | none => if sub.isPrefixOf (c :: cs) then some 0 else none := rfl

theorem stripR_cons (c : Char) (cs : List Char) :
    stripR (c :: cs) =
      match stripR cs with
      | [] => if isSpc c then [] else [c]
      | d :: r => c :: d :: r := rfl

theorem prefOf_trans {a b c : List Char} (h1 : a.isPrefixOf b = true)
    (h2 : b.isPrefixOf c = true) : a.isPrefixOf c = true := by
  induction a generalizing b c with
  | nil => simp [List.isPrefixOf]
  | cons x xs ih =>
    cases b with
    | nil => simp [List.isPrefixOf] at h1
    | cons y ys =>
      cases c with
      | nil => simp [List.isPrefixOf] at h2
      | cons z zs =>
        simp only [List.isPrefixOf, Bool.and_eq_true, beq_iff_eq] at h1 h2 ⊢
        exact ⟨h1.1.trans h2.1, ih h1.2 h2.2⟩

theorem prefOf_append {a x : List Char} (y : List Char) (h : a.isPrefixOf x = true) :
    a.isPrefixOf (x ++ y) = true := by
  induction a generalizing x with
  | nil => simp [List.isPrefixOf]
  | cons c cs ih =>
    cases x with
    | nil => simp [List.isPrefixOf] at h
    | cons d ds =>
      simp only [List.isPrefixOf, Bool.and_eq_true, beq_iff_eq] at h
      simp only [List.cons_append, List.isPrefixOf, Bool.and_eq_true, beq_iff_eq]
      exact ⟨h.1, ih h.2⟩

theorem prefOf_refl (a : List Char) : a.isPrefixOf a = true := by
  induction a with
  | nil => simp [List.isPrefixOf]
  | cons c cs ih => simp [List.isPrefixOf, ih]

theorem takePref (n : Nat) (x : List Char) : (x.take n).isPrefixOf x = true := by
  induction x generalizing n with
  | nil => simp [List.isPrefixOf]
  | cons c cs ih =>
    cases n with
    | zero => simp [List.isPrefixOf]
    | succ m => simp [List.isPrefixOf, ih]

theorem prefOf_take {a x : List Char} {n : Nat} (h : a.isPrefixOf (x.take n) = true) :
    a.isPrefixOf x = true := prefOf_trans h (takePref n x)

theorem prefOf_drop_mono {x y : List Char} (i : Nat) (h : x.isPrefixOf y = true) :
    (x.drop i).isPrefixOf (y.drop i) = true := by
  induction i generalizing x y with
  | zero => simpa using h
  | succ n ih =>
    cases x with
    | nil => simp [List.isPrefixOf]
    | cons c cs =>
      cases y with
      | nil => simp [List.isPrefixOf] at h
      | cons d ds =>
        simp only [List.isPrefixOf, Bool.and_eq_true, beq_iff_eq] at h
        simpa using ih h.2

theorem findSub_some_pref {sub s : List Char} {i : Nat} (h : findSub sub s = some i) :
    sub.isPrefixOf (s.drop i) = true := by
  induction s generalizing i with
  | nil =>
    cases sub with
    | nil => simp [List.isPrefixOf]
    | cons c cs => simp [findSub] at h
  | cons a as ih =>
    rw [findSub_cons] at h
    by_cases hp : sub.isPrefixOf (a :: as) = true
    · rw [if_pos hp] at h
      cases h
      simpa using hp
    · rw [if_neg hp] at h
      cases hfind : findSub sub as with
      | none => rw [hfind] at h; simp at h
      | some j =>
        rw [hfind] at h
        simp only [Option.map_some', Option.some.injEq] at h
        have hj := ih hfind
        rw [← h]
        simpa using hj

theorem rfindSub_some_pref {sub s : List Char} {i : Nat} (h : rfindSub sub s = some i) :
    sub.isPrefixOf (s.drop i) = true := by
  induction s generalizing i with
  | nil =>
    cases sub with
    | nil =>
      simp [rfindSub] at h
      rw [← h]
      simp [List.isPrefixOf]
    | cons c cs => simp [rfindSub] at h
  | cons a as ih =>
    rw [rfindSub_cons] at h
    cases hr : rfindSub sub as with
    | some j =>
      rw [hr] at h
      simp only [Option.some.injEq] at h
      have hj := ih hr
      rw [← h]
      simpa using hj
    | none =>
      rw [hr] at h
      by_cases hp : sub.isPrefixOf (a :: as) = true
      · rw [if_pos hp] at h
        cases h
        simpa using hp
      · rw [if_neg hp] at h
        simp at h

theorem findSub_isSome_iff (sub s : List Char) :
    (findSub sub s).isSome = true ↔ OccursIn sub s := by
  induction s with
  | nil =>
    constructor
    · intro h
      cases sub with
      | nil => exact ⟨0, by simp [List.isPrefixOf]⟩
      | cons c cs => simp [findSub] at h
    · rintro ⟨i, hi⟩
      cases sub with
      | nil => simp [findSub]
      | cons c cs => simp [List.isPrefixOf] at hi
  | cons a as ih =>
    by_cases hp : sub.isPrefixOf (a :: as) = true
    · constructor
      · intro _
        exact ⟨0, by simpa using hp⟩
      · intro _
        simp [findSub_cons, hp]
    · have key : OccursIn sub (a :: as) ↔ OccursIn sub as := by
        constructor
        · rintro ⟨i, hi⟩
          cases i with
          | zero => exact absurd (by simpa using hi) hp
          | succ j => exact ⟨j, by simpa using hi⟩
        · rintro ⟨i, hi⟩
          exact ⟨i + 1, by simpa using hi⟩
      rw [key, ← ih, findSub_cons, if_neg hp]
      cases findSub sub as <;> simp

theorem findSub_eq_none_of_not_occurs {sub s : List Char} (h : ¬ OccursIn sub s) :
    findSub sub s = none := by
  rw [← Option.not_isSome_iff_eq_none]
  intro hs
  exact h ((findSub_isSome_iff sub s).1 hs)

theorem occursIn_of_isSome {sub s : List Char} (h : (findSub sub s).isSome = true) :
    OccursIn sub s := (findSub_isSome_iff sub s).1 h

theorem occursIn_mono_pat {sub sub2 s : List Char} (hp : sub.isPrefixOf sub2 = true)
    (h : OccursIn sub2 s) : OccursIn sub s := by
  obtain ⟨i, hi⟩ := h
  exact ⟨i, prefOf_trans hp hi⟩

theorem occursIn_of_pref_list {x y sub : List Char} (hp : x.isPrefixOf y = true)
    (h : OccursIn sub x) : OccursIn sub y := by
  obtain ⟨i, hi⟩ := h
  exact ⟨i, prefOf_trans hi (prefOf_drop_mono i hp)⟩

theorem occursIn_drop {sub s : List Char} {k : Nat} (h : OccursIn sub (s.drop k)) :
    OccursIn sub s := by
  obtain ⟨i, hi⟩ := h
  rw [List.drop_drop] at hi
  exact ⟨k + i, hi⟩

theorem occursIn_take {sub s : List Char} {n : Nat} (h : OccursIn sub (s.take n)) :
    OccursIn sub s := by
  obtain ⟨i, hi⟩ := h
  have h2 : ((s.take n).drop i).isPrefixOf (s.drop i) = true := by
    rw [List.drop_take]
    exact takePref _ _
  exact ⟨i, prefOf_trans hi h2⟩

theorem stripL_eq_drop (s : List Char) : ∃ k, stripL s = s.drop k := by
  induction s with
  | nil => exact ⟨0, rfl⟩
  | cons c cs ih =>
    by_cases hc : isSpc c = true
    · obtain ⟨k, hk⟩ := ih
      refine ⟨k + 1, ?_⟩
      simpa [stripL, List.dropWhile_cons, hc] using hk
    · exact ⟨0, by simp [stripL, List.dropWhile_cons, hc]⟩

theorem stripR_pref (s : List Char) : (stripR s).isPrefixOf s = true := by
  induction s with
  | nil => simp [stripR, List.isPrefixOf]
  | cons c cs ih =>
    rw [stripR_cons]
    cases h : stripR cs with
    | nil =>
      by_cases hc : isSpc c = true
      · simp [hc, List.isPrefixOf]
      · simp [hc, List.isPrefixOf]
    | cons d r =>
      rw [h] at ih
      simp only [List.isPrefixOf, Bool.and_eq_true, beq_iff_eq]
      exact ⟨by trivial, ih⟩

theorem occursIn_pyStrip {sub s : List Char} (h : OccursIn sub (pyStrip s)) :
    OccursIn sub s := by
  have h1 : OccursIn sub (stripL s) := occursIn_of_pref_list (stripR_pref (stripL s)) h
  obtain ⟨k, hk⟩ := stripL_eq_drop s
  rw [hk] at h1
  exact occursIn_drop h1

theorem occursIn_pySlice {sub s : List Char} {a b : Nat} (h : OccursIn sub (pySlice a b s)) :
    OccursIn sub s := occursIn_drop (occursIn_take h)

theorem stripL_noop {c : Char} {cs : List Char} (hc : isSpc c = false) :
    stripL (c :: cs) = c :: cs := by
  simp [stripL, List.dropWhile_cons, hc]

theorem stripL_cons_space {c : Char} {cs : List Char} (hc : isSpc c = true) :
    stripL (c :: cs) = stripL cs := by
  simp [stripL, List.dropWhile_cons, hc]

theorem stripL_head_not_space {s : List Char} {c : Char} {cs : List Char}
    (h : stripL s = c :: cs) : isSpc c = false := by
  induction s with
  | nil => simp [stripL] at h
  | cons a as ih =>
    by_cases ha : isSpc a = true
    · rw [stripL_cons_space ha] at h
      exact ih h
    · have ha2 : isSpc a = false := by simpa using ha
      rw [stripL_noop ha2] at h
      cases h
      exact ha2

theorem stripR_append_space {x : List Char} {d : Char} (hd : isSpc d = true) :
    stripR (x ++ [d]) = stripR x := by
  induction x with
  | nil => simp [stripR, hd]
  | cons c cs ih =>
    rw [List.cons_append, stripR_cons, ih, ← stripR_cons]

theorem stripR_noop {s : List Char} {d : Char} (hlast : s.getLast? = some d)
    (hd : isSpc d = false) : stripR s = s := by
  induction s with
  | nil => simp at hlast
  | cons c cs ih =>
    cases cs with
    | nil =>
      simp only [List.getLast?_singleton, Option.some.injEq] at hlast
      rw [stripR_cons]
      simp [stripR, hlast ▸ hd]
    | cons e es =>
      have h2 : (e :: es).getLast? = some d := by
        rwa [List.getLast?_cons_cons] at hlast
      have ih2 := ih h2
      rw [stripR_cons, ih2]

theorem stripR_cases (c : Char) (cs : List Char) :
    stripR (c :: cs) = [] ∨ ∃ r, stripR (c :: cs) = c :: r := by
  rw [stripR_cons]
  cases stripR cs with
  | nil =>
    by_cases hc : isSpc c = true
    · left; simp [hc]
    · right; exact ⟨[], by simp [hc]⟩
  | cons d r => right; exact ⟨d :: r, rfl⟩

theorem stripR_idem (s : List Char) : stripR (stripR s) = stripR s := by
  induction s with
  | nil => rfl
  | cons c cs ih =>
    rw [stripR_cons]
    cases h : stripR cs with
    | nil =>
      by_cases hc : isSpc c = true
      · simp [hc, stripR]
      · simp [hc, stripR]
    | cons d r =>
      rw [h] at ih
      rw [stripR_cons, ih]

theorem pyStrip_noop {s : List Char} {c d : Char} (hhead : s.head? = some c)
    (hc : isSpc c = false) (hlast : s.getLast? = some d) (hd : isSpc d = false) :
    pyStrip s = s := by
  cases s with
  | nil => simp at hhead
  | cons a as =>
    have hca : a = c := by
      simpa using hhead
    unfold pyStrip
    rw [stripL_noop (hca ▸ hc)]
    exact stripR_noop hlast hd

theorem pyStrip_cons_space {c : Char} {s : List Char} (hc : isSpc c = true) :
    pyStrip (c :: s) = pyStrip s := by
  unfold pyStrip
  rw [stripL_cons_space hc]

theorem stripL_append_keep {x y : List Char} (hx : stripL x ≠ []) :
    stripL (x ++ y) = stripL x ++ y := by
  unfold stripL at hx ⊢
  rw [List.dropWhile_append, if_neg]
  simpa [List.isEmpty_iff] using hx

theorem pyStrip_append_space {x : List Char} {d : Char} (hd : isSpc d = true) :
    pyStrip (x ++ [d]) = pyStrip x := by
  by_cases hx : stripL x = []
  · have h1 : stripL (x ++ [d]) = [] := by
      unfold stripL at hx ⊢
      rw [List.dropWhile_append, if_pos]
      · simp [List.dropWhile_cons, hd]
      · simpa [List.isEmpty_iff] using hx
    simp [pyStrip, hx, h1]
  · unfold pyStrip
    rw [stripL_append_keep hx, stripR_append_space hd]

theorem pyStrip_idem (s : List Char) : pyStrip (pyStrip s) = pyStrip s := by
  unfold pyStrip
  have h2 : stripL (stripR (stripL s)) = stripR (stripL s) := by
    cases hc : stripL s with
    | nil => simp [stripR, stripL]
    | cons c cs =>
      have hcns : isSpc c = false := stripL_head_not_space hc
      rcases stripR_cases c cs with h | ⟨r, h⟩
      · rw [h]; simp [stripL]
      · rw [h]
        exact stripL_noop hcns
  rw [h2, stripR_idem]

theorem fence3S_eq : fence3S = [tickC, tickC, tickC] := by decide

theorem jsonFenceS_eq : jsonFenceS = [tickC, tickC, tickC, 'j', 's', 'o', 'n'] := by decide

theorem pref_break {sub x z : List Char} (hall : ∀ c ∈ sub, c = tickC)
    (h : sub.isPrefixOf (x ++ '\n' :: z) = true) : sub.isPrefixOf x = true := by
  induction sub generalizing x with
  | nil => simp [List.isPrefixOf]
  | cons s ss ih =>
    cases x with
    | nil =>
      simp only [List.nil_append, List.isPrefixOf, Bool.and_eq_true, beq_iff_eq] at h
      have hs : s = tickC := hall s (by simp)
      rw [hs] at h
      exact absurd h.1 (by decide)
    | cons a x2 =>
      simp only [List.cons_append, List.isPrefixOf, Bool.and_eq_true, beq_iff_eq] at h ⊢
      exact ⟨h.1, ih (fun c hc => hall c (by simp [hc])) h.2⟩

theorem fence3_all_tick : ∀ c ∈ fence3S, c = tickC := by
  rw [fence3S_eq]
  intro c hc
  simp only [List.mem_cons, List.not_mem_nil, or_false] at hc
  rcases hc with h | h | h <;> exact h

theorem find3_closing (p : List Char) (h : ¬ OccursIn fence3S p) :
    findSub fence3S (p ++ '\n' :: fence3S) = some (p.length + 1) := by
  induction p with
  | nil => decide
  | cons c cs ih =>
    have hnp : ¬ fence3S.isPrefixOf (c :: cs) = true := by
      intro hp
      exact h ⟨0, by simpa using hp⟩
    have hocc : ¬ OccursIn fence3S cs := by
      rintro ⟨i, hi⟩
      exact h ⟨i + 1, by simpa using hi⟩
    have ihh := ih hocc
    have hnp2 : ¬ fence3S.isPrefixOf (c :: (cs ++ '\n' :: fence3S)) = true := by
      intro hp
      rw [← List.cons_append] at hp
      exact hnp (pref_break fence3_all_tick hp)
    rw [List.cons_append, findSub_cons, if_neg hnp2, ihh]
    simp [Nat.add_comm]

theorem fenceWrap_eq (p : List Char) :
    fenceWrap p =
      tickC :: tickC :: tickC :: 'j' :: 's' :: 'o' :: 'n' :: '\n' ::
        (p ++ '\n' :: fence3S) := by
  show lc "```json\n" ++ p ++ lc "\n```" = _
  have h1 : lc "```json\n" = [tickC, tickC, tickC, 'j', 's', 'o', 'n', '\n'] := by decide
  have h2 : lc "\n```" = '\n' :: fence3S := by decide
  rw [h1, h2]
  simp

theorem fenceStage_no_fence {s : List Char} (h : ¬ OccursIn fence3S s) : fenceStage s = s := by
  have h1 : findSub fence3S s = none := findSub_eq_none_of_not_occurs h
  have h2 : findSub jsonFenceS s = none := by
    apply findSub_eq_none_of_not_occurs
    intro hocc
    exact h (occursIn_mono_pat (by decide) hocc)
  unfold fenceStage
  rw [h2, h1]

theorem fenceStage_fenceWrap {p : List Char} (h : ¬ OccursIn fence3S p) :
    fenceStage (fenceWrap p) = pyStrip p := by
  have h0 : findSub jsonFenceS (fenceWrap p) = some 0 := by
    rw [fenceWrap_eq, findSub_cons, if_pos]
    simp [jsonFenceS_eq, List.isPrefixOf]
    decide
  have hdrop : (fenceWrap p).drop 7 = '\n' :: (p ++ '\n' :: fence3S) := by
    rw [fenceWrap_eq]
    rfl
  have hinner : findSub fence3S ('\n' :: (p ++ '\n' :: fence3S)) = some (p.length + 2) := by
    rw [findSub_cons, if_neg, find3_closing p h]
    · rfl
    · simp only [fence3S_eq, List.isPrefixOf, Bool.and_eq_true, beq_iff_eq]
      rintro ⟨h1, -⟩
      exact absurd h1 (by decide)
  have hfind : findFrom fence3S (fenceWrap p) (0 + 7) = some (p.length + 9) := by
    unfold findFrom
    rw [Nat.zero_add, hdrop, hinner]
    rfl
  have hslice : pySlice (0 + 7) (p.length + 9) (fenceWrap p) = '\n' :: (p ++ ['\n']) := by
    unfold pySlice
    rw [Nat.zero_add, hdrop]
    have he : p.length + 9 - 7 = p.length + 1 + 1 := by omega
    rw [he, List.take_succ_cons]
    congr 1
    rw [List.take_append]
    simp [fence3S_eq]
  unfold fenceStage
  rw [h0]
  dsimp only
  rw [hfind]
  dsimp only
  rw [hslice]
  have hnl : isSpc '\n' = true := by decide
  rw [pyStrip_cons_space hnl, pyStrip_append_space hnl]

theorem singleton_pref {c : Char} {l : List Char} (h : [c].isPrefixOf l = true) :
    ∃ r, l = c :: r := by
  cases l with
  | nil => simp [List.isPrefixOf] at h
  | cons d ds =>
    simp only [List.isPrefixOf, Bool.and_eq_true, beq_iff_eq] at h
    exact ⟨ds, by rw [h.1]⟩

theorem appendValidated_eq (acc : List Flashcard) (card : Json) :
    appendValidated acc card =
      acc ++ (if keepsCandidate card then [toFlashcard card] else []) := by
  cases card with
  | obj fs =>
    simp only [appendValidated, keepsCandidate, toFlashcard]
    split
    · simp_all
    · simp_all
  | null => simp [appendValidated, keepsCandidate]
  | bool b => simp [appendValidated, keepsCandidate]
  | num i => simp [appendValidated, keepsCandidate]
  | str st => simp [appendValidated, keepsCandidate]
  | arr xs => simp [appendValidated, keepsCandidate]

theorem foldl_appendValidated (cards : List Json) (acc : List Flashcard) :
    cards.foldl appendValidated acc = acc ++ cards.foldl appendValidated [] := by
  induction cards generalizing acc with
  | nil => simp
  | cons c cs ih =>
    rw [List.foldl_cons, List.foldl_cons, ih, ih (appendValidated [] c),
      appendValidated_eq, appendValidated_eq [] c]
    simp [List.append_assoc]

theorem validateCards_eq_filterMap (cards : List Json) :
    validateCards cards = (cards.filter keepsCandidate).map toFlashcard := by
  induction cards with
  | nil => rfl
  | cons c cs ih =>
    unfold validateCards at ih ⊢
    rw [List.foldl_cons, foldl_appendValidated, appendValidated_eq, List.filter_cons]
    by_cases h : keepsCandidate c = true
    · simp [h, ih]
    · simp [h, ih]

theorem generateFlashcards_disabled (api : Except Unit (List Char)) (topic : List Char)
    (n : Int) : generateFlashcards false api topic n = getSampleFlashcards topic := rfl

theorem generateFlashcards_error (u : Unit) (topic : List Char) (n : Int) :
    generateFlashcards true (Except.error u) topic n = getSampleFlashcards topic := rfl

theorem generateFlashcards_ok (s topic : List Char) (n : Int) :
    generateFlashcards true (Except.ok s) topic n =
      if (parseFlashcardResponse (pyStrip s)).isEmpty then getSampleFlashcards topic
      else parseFlashcardResponse (pyStrip s) := rfl

theorem getSampleFlashcards_ne_nil (topic : List Char) :
    getSampleFlashcards topic ≠ [] := by simp [getSampleFlashcards]

theorem mem_stripL {c : Char} {s : List Char} (hmem : c ∈ s) (hc : isSpc c = false) :
    c ∈ stripL s := by
  induction s with
  | nil => simp at hmem
  | cons a as ih =>
    by_cases ha : isSpc a = true
    · rw [stripL_cons_space ha]
      rcases List.mem_cons.1 hmem with h | h
      · rw [h] at hc
        rw [hc] at ha
        simp at ha
      · exact ih h
    · have ha2 : isSpc a = false := by simpa using ha
      rw [stripL_noop ha2]
      exact hmem

theorem mem_stripR {c : Char} {s : List Char} (hmem : c ∈ s) (hc : isSpc c = false) :
    c ∈ stripR s := by
  induction s with
  | nil => simp at hmem
  | cons a as ih =>
    rw [stripR_cons]
    cases h : stripR as with
    | nil =>
      rcases List.mem_cons.1 hmem with hca | hca
      · rw [hca] at hc ⊢
        simp [hc]
      · have := ih hca
        rw [h] at this
        simp at this
    | cons d r =>
      rcases List.mem_cons.1 hmem with hca | hca
      · rw [hca]; simp
      · have := ih hca
        rw [h] at this
        simp [this]

theorem pyStrip_ne_nil_of_mem {c : Char} {s : List Char} (hmem : c ∈ s)
    (hc : isSpc c = false) : pyStrip s ≠ [] := by
  have h1 : c ∈ pyStrip s := mem_stripR (mem_stripL hmem hc) hc
  intro h
  rw [h] at h1
  simp at h1

/-- Claim C1: for every non-empty topic and positive count the pipeline
returns a non-empty list of flashcards (totality holds by construction, so no
exception reaches the caller), and whenever the capability is disabled, the
invocation fails, or extraction yields an empty list, the deterministic
fallback set is returned. -/
theorem generate_nonempty_and_fallback (enabled : Bool) (api : Except Unit (List Char))
    (topic : List Char) (n : Int) (htopic : topic ≠ []) (hn : 1 ≤ n) :
    generateFlashcards enabled api topic n ≠ [] ∧
    (enabled = false → generateFlashcards enabled api topic n = getSampleFlashcards topic) ∧
    (∀ u, api = Except.error u →
      generateFlashcards enabled api topic n = getSampleFlashcards topic) ∧
    (∀ s, api = Except.ok s → parseFlashcardResponse (pyStrip s) = [] →
      generateFlashcards enabled api topic n = getSampleFlashcards topic) := by
  refine ⟨?_, ?_, ?_, ?_⟩
  · cases enabled with
    | false => rw [generateFlashcards_disabled]; exact getSampleFlashcards_ne_nil topic
    | true =>
      cases api with
      | error u => rw [generateFlashcards_error]; exact getSampleFlashcards_ne_nil topic
      | ok s =>
        rw [generateFlashcards_ok]
        split
        · exact getSampleFlashcards_ne_nil topic
        · rename_i hne
          intro hnil
          exact hne (by simp [List.isEmpty_iff, hnil])
  · intro he
    subst he
    rfl
  · intro u hu
    subst hu
    cases enabled with
    | false => rfl
    | true => rfl
  · intro s hs hempty
    subst hs
    cases enabled with
    | false => rfl
    | true => rw [generateFlashcards_ok, hempty]; simp

theorem generate_nonempty_and_fallback_witness :
    (lc "T" ≠ ([] : List Char)) ∧ ((1 : Int) ≤ 3) ∧
    generateFlashcards false (Except.error ()) (lc "T") 3 ≠ [] :=
  ⟨by decide, by decide,
    (generate_nonempty_and_fallback false (Except.error ()) (lc "T") 3
      (by decide) (by decide)).1⟩

/-- Claim C10: the pipeline is total for every input, including the empty
topic and non-positive counts; the disabled path and the absorbed invocation
failure both return the fallback, and the result is never empty. -/
theorem generate_total_all_inputs (enabled : Bool) (api : Except Unit (List Char))
    (topic : List Char) (n : Int) :
    generateFlashcards enabled api topic n ≠ [] ∧
    (enabled = false → generateFlashcards enabled api topic n = getSampleFlashcards topic) ∧
    (∀ u, api = Except.error u →
      generateFlashcards enabled api topic n = getSampleFlashcards topic) := by
  refine ⟨?_, ?_, ?_⟩
  · cases enabled with
    | false => rw [generateFlashcards_disabled]; exact getSampleFlashcards_ne_nil topic
    | true =>
      cases api with
      | error u => rw [generateFlashcards_error]; exact getSampleFlashcards_ne_nil topic
      | ok s =>
        rw [generateFlashcards_ok]
        split
        · exact getSampleFlashcards_ne_nil topic
        · rename_i hne
          intro hnil
          exact hne (by simp [List.isEmpty_iff, hnil])
  · intro he
    subst he
    rfl
  · intro u hu
    subst hu
    cases enabled with
    | false => rfl
    | true => rfl

theorem generate_total_all_inputs_witness :
    generateFlashcards false (Except.error ()) [] (-5) = getSampleFlashcards [] :=
  (generate_total_all_inputs false (Except.error ()) [] (-5)).2.1 rfl

/-- Claim C3 counterexample: with count 1 and a response carrying two valid
cards, extraction succeeds yet the pipeline returns two flashcards, so the
result length is not bounded by the requested count. -/
theorem generate_can_exceed_count :
    parseFlashcardResponse (pyStrip inputTwoCards) ≠ [] ∧
    (generateFlashcards true (Except.ok inputTwoCards) (lc "T") 1).length = 2 ∧
    ¬ ((generateFlashcards true (Except.ok inputTwoCards) (lc "T") 1).length ≤ 1) :=
  ⟨by decide, by decide, by decide⟩

/-- Claim C3 (amended): when extraction succeeds the pipeline returns the
entire validated list — the count parameter never truncates the result and the
output is independent of it — and when extraction fails it returns the
fallback set, whose size is the fixed constant 3. -/
theorem generate_length_full_or_fallback (s topic : List Char) (n m : Int) :
    (parseFlashcardResponse (pyStrip s) ≠ [] →
      generateFlashcards true (Except.ok s) topic n = parseFlashcardResponse (pyStrip s)) ∧
    (parseFlashcardResponse (pyStrip s) = [] →
      generateFlashcards true (Except.ok s) topic n = getSampleFlashcards topic ∧
      (getSampleFlashcards topic).length = 3) ∧
    generateFlashcards true (Except.ok s) topic n =
      generateFlashcards true (Except.ok s) topic m := by
  refine ⟨?_, ?_, rfl⟩
  · intro h
    rw [generateFlashcards_ok, if_neg]
    simpa [List.isEmpty_iff] using h
  · intro h
    rw [generateFlashcards_ok, h]
    exact ⟨by simp, rfl⟩

theorem generate_length_full_or_fallback_witness :
    parseFlashcardResponse (pyStrip inputTwoCards) ≠ [] ∧
    generateFlashcards true (Except.ok inputTwoCards) (lc "T") 1 =
      parseFlashcardResponse (pyStrip inputTwoCards) :=
  ⟨by decide, (generate_length_full_or_fallback inputTwoCards (lc "T") 1 1).1 (by decide)⟩

/-- Claim C4: extraction is total (all failure paths converge to the empty
list): syntactically invalid text such as "not json at all" yields `[]` and
the pipeline then falls back; any input whose unwrapped text fails to parse
yields `[]`; and any input whose candidates all fail the key check yields `[]`. -/
theorem extraction_failures_yield_empty :
    parseFlashcardResponse inputNotJson = [] ∧
    (∀ (t : List Char) (n : Int),
      generateFlashcards true (Except.ok inputNotJson) t n = getSampleFlashcards t) ∧
    (∀ s, parseJson (braceStage (fenceStage (pyStrip s))) = none →
      parseFlashcardResponse s = []) ∧
    (∀ s j fl cards, parseJson (braceStage (fenceStage (pyStrip s))) = some j →
      selectCandidates j = some fl → pyIterCandidates fl = some cards →
      (∀ c ∈ cards, keepsCandidate c = false) → parseFlashcardResponse s = []) := by
  refine ⟨by decide, ?_, ?_, ?_⟩
  · intro t n
    rw [generateFlashcards_ok]
    have h : parseFlashcardResponse (pyStrip inputNotJson) = [] := by decide
    rw [h]
    simp
  · intro s hnone
    unfold parseFlashcardResponse parseStage
    rw [hnone]
  · intro s j fl cards hj hsel hiter hall
    unfold parseFlashcardResponse parseStage
    rw [hj]
    dsimp only
    rw [hsel]
    dsimp only
    rw [hiter]
    dsimp only
    rw [validateCards_eq_filterMap]
    have hfil : cards.filter keepsCandidate = [] := by
      rw [List.filter_eq_nil_iff]
      intro a ha
      simp [hall a ha]
    rw [hfil]
    rfl

theorem extraction_failures_yield_empty_witness :
    parseFlashcardResponse (lc "[\"x\"]") = [] :=
  extraction_failures_yield_empty.2.2.2 (lc "[\"x\"]") (Json.arr [Json.str ['x']])
    (Json.arr [Json.str ['x']]) [Json.str ['x']] rfl rfl rfl (by decide)

/-- Claim C5: a candidate is kept exactly when it is a key-value record with
both a `question` and an `answer` key (extra keys ignored), its values are
rendered as trimmed text, order is preserved; on the concrete input of the
spec the second entry is dropped and only Q1/A1 survives. -/
theorem validate_keeps_iff_both_keys :
    (∀ cards : List Json,
      validateCards cards = (cards.filter keepsCandidate).map toFlashcard) ∧
    parseFlashcardResponse inputC5 = [⟨lc "Q1", lc "A1"⟩] :=
  ⟨validateCards_eq_filterMap, by decide⟩

theorem pyStrip_nil : pyStrip [] = [] := rfl

theorem pyStrip_ne_nil_left (c : Char) (x y : List Char) (hmem : c ∈ x)
    (hc : isSpc c = false) : pyStrip (x ++ y) ≠ [] :=
  pyStrip_ne_nil_of_mem (List.mem_append_left y hmem) hc

theorem pyStrip_ne_nil_right (c : Char) (x y : List Char) (hmem : c ∈ y)
    (hc : isSpc c = false) : pyStrip (x ++ y) ≠ [] :=
  pyStrip_ne_nil_of_mem (List.mem_append_right x hmem) hc

/-- Claim C2 counterexample: a response whose question value trims to the
empty string produces a pipeline result containing a flashcard whose question
is empty after trimming. -/
theorem extraction_can_yield_blank_question :
    generateFlashcards true (Except.ok inputBlankQuestion) (lc "T") 3 =
      [⟨[], lc "A"⟩] ∧
    ¬ (∀ c ∈ generateFlashcards true (Except.ok inputBlankQuestion) (lc "T") 3,
        pyStrip c.question ≠ []) :=
  ⟨by decide, by decide⟩

/-- Claim C2 (amended): every fallback flashcard has a non-empty question and
answer after trimming, and every extracted flashcard carries question and
answer already trimmed of surrounding whitespace — though possibly empty. -/
theorem flashcard_fields_trimmed (topic : List Char) :
    (∀ c ∈ getSampleFlashcards topic, pyStrip c.question ≠ [] ∧ pyStrip c.answer ≠ []) ∧
    (∀ s : List Char, ∀ c ∈ parseFlashcardResponse s,
      c.question = pyStrip c.question ∧ c.answer = pyStrip c.answer) := by
  constructor
  · intro c hc
    simp only [getSampleFlashcards, List.mem_cons, List.not_mem_nil, or_false] at hc
    rcases hc with h | h | h <;> subst h
    · exact ⟨pyStrip_ne_nil_left 'W' _ _ (List.mem_append_left _ (by decide)) (by decide),
        pyStrip_ne_nil_left 'T' _ _ (List.mem_append_left _ (by decide)) (by decide)⟩
    · exact ⟨pyStrip_ne_nil_left 'W' _ _ (List.mem_append_left _ (by decide)) (by decide),
        pyStrip_ne_nil_right '.' _ _ (by decide) (by decide)⟩
    · exact ⟨pyStrip_ne_nil_left 'H' _ _ (List.mem_append_left _ (by decide)) (by decide),
        pyStrip_ne_nil_left 'K' _ _ (List.mem_append_left _ (by decide)) (by decide)⟩
  · intro s c hc
    unfold parseFlashcardResponse parseStage at hc
    cases h1 : parseJson (braceStage (fenceStage (pyStrip s))) with
    | none => rw [h1] at hc; simp at hc
    | some j =>
      rw [h1] at hc
      dsimp only at hc
      cases h2 : selectCandidates j with
      | none => rw [h2] at hc; simp at hc
      | some fl =>
        rw [h2] at hc
        dsimp only at hc
        cases h3 : pyIterCandidates fl with
        | none => rw [h3] at hc; simp at hc
        | some cards =>
          rw [h3] at hc
          dsimp only at hc
          rw [validateCards_eq_filterMap] at hc
          simp only [List.mem_map] at hc
          obtain ⟨j2, -, hj2⟩ := hc
          subst hj2
          cases j2 <;> simp [toFlashcard, pyStrip_idem, pyStrip_nil]

theorem flashcard_fields_trimmed_witness :
    lc "Q1" = pyStrip (lc "Q1") ∧ lc "A1" = pyStrip (lc "A1") :=
  (flashcard_fields_trimmed (lc "T")).2 inputC5 ⟨lc "Q1", lc "A1"⟩ (by decide)

/-- Claim C8: the fallback generator is a pure function of the topic alone,
always returning exactly three fixed-shape flashcards, each of whose question
and answer texts reference the topic by name, and the disabled pipeline
returns exactly this set (in particular for topic "Photosynthesis" and
count 3). -/
theorem fallback_three_cards_mention_topic (topic : List Char)
    (api : Except Unit (List Char)) (n : Int) :
    generateFlashcards false api topic n = getSampleFlashcards topic ∧
    (getSampleFlashcards topic).length = 3 ∧
    ((getSampleFlashcards topic).all
      (fun c => containsSub topic c.question && containsSub topic c.answer)) = true ∧
    generateFlashcards false api (lc "Photosynthesis") 3 =
      getSampleFlashcards (lc "Photosynthesis") := by
  have hc : ∀ (x y : List Char), containsSub topic (x ++ topic ++ y) = true := by
    intro x y
    have : (findSub topic (x ++ topic ++ y)).isSome = true := by
      apply (findSub_isSome_iff _ _).2
      refine ⟨x.length, ?_⟩
      rw [List.append_assoc, List.drop_left]
      exact prefOf_append y (prefOf_refl topic)
    exact this
  refine ⟨rfl, rfl, ?_, rfl⟩
  simp only [getSampleFlashcards, List.all_cons, List.all_nil, Bool.and_true,
    Bool.and_eq_true]
  exact ⟨⟨hc _ _, hc _ _⟩, ⟨hc _ _, by simpa using hc [] _⟩, hc _ _, hc _ _⟩

/-- Claim C9: when the parsed object has no `flashcards` key the object itself
is iterated, which yields its keys (as strings) rather than its values, so no
candidate passes the dict check and the result is empty; in particular a bare
single flashcard object extracts to `[]` and the pipeline falls back. -/
theorem object_without_flashcards_yields_empty :
    (∀ fields, pyIterCandidates (Json.obj fields) =
      some (fields.map (fun kv => Json.str kv.1))) ∧
    (∀ s fields, parseJson (braceStage (fenceStage (pyStrip s))) = some (Json.obj fields) →
      lookupKey fields keyFlashcards = none → parseFlashcardResponse s = []) ∧
    parseFlashcardResponse inputBareCard = [] ∧
    (∀ (t : List Char) (n : Int),
      generateFlashcards true (Except.ok inputBareCard) t n = getSampleFlashcards t) := by
  refine ⟨fun fields => rfl, ?_, by decide, ?_⟩
  · intro s fields hj hlk
    unfold parseFlashcardResponse parseStage
    rw [hj]
    dsimp only
    unfold selectCandidates
    dsimp only
    rw [hlk]
    dsimp only [pyIterCandidates]
    rw [validateCards_eq_filterMap]
    have hfil : (fields.map (fun kv => Json.str kv.1)).filter keepsCandidate = [] := by
      rw [List.filter_eq_nil_iff]
      intro a ha
      simp only [List.mem_map] at ha
      obtain ⟨kv, -, hkv⟩ := ha
      rw [← hkv]
      simp [keepsCandidate]
    rw [hfil]
    rfl
  · intro t n
    rw [generateFlashcards_ok]
    have h : parseFlashcardResponse (pyStrip inputBareCard) = [] := by decide
    rw [h]
    simp

theorem object_without_flashcards_yields_empty_witness :
    parseFlashcardResponse inputBareCard = [] :=
  object_without_flashcards_yields_empty.2.1 inputBareCard
    [(lc "question", Json.str (lc "Q")), (lc "answer", Json.str (lc "A"))] rfl rfl

/-- Claim C6 counterexample: for a well-formed payload whose string content
holds the fence marker, extraction of the fenced form differs from extraction
of the bare payload. -/
theorem fenced_json_differs_on_ticked_payload :
    (parseJson payloadTicked).isSome = true ∧
    parseFlashcardResponse payloadTicked = [⟨lc "x```y", lc "c"⟩] ∧
    parseFlashcardResponse (fenceWrap payloadTicked) = [] ∧
    parseFlashcardResponse (fenceWrap payloadTicked) ≠
      parseFlashcardResponse payloadTicked :=
  ⟨by decide, by decide, by decide, by decide⟩

/-- Claim C6 (amended): for every well-formed JSON payload in which the fence
marker ``` does not occur, extraction applied to the payload wrapped in a
JSON-labelled markdown fence equals extraction applied to the bare payload. -/
theorem fenced_json_equals_bare (p : List Char)
    (hwf : (parseJson p).isSome = true)
    (hnf : containsSub fence3S p = false) :
    parseFlashcardResponse (fenceWrap p) = parseFlashcardResponse p := by
  have hocc : ¬ OccursIn fence3S p := by
    intro ho
    have hs := (findSub_isSome_iff fence3S p).2 ho
    simp [containsSub, hs] at hnf
  have h1 : pyStrip (fenceWrap p) = fenceWrap p := by
    have hh : (fenceWrap p).head? = some tickC := by rw [fenceWrap_eq]; rfl
    have hl : (fenceWrap p).getLast? = some tickC := by
      show (lc "```json\n" ++ p ++ lc "\n```").getLast? = some tickC
      rw [List.getLast?_append]
      have hx : (lc "\n```").getLast? = some tickC := by decide
      rw [hx]
      rfl
    exact pyStrip_noop hh (by decide) hl (by decide)
  unfold parseFlashcardResponse
  rw [h1, fenceStage_fenceWrap hocc]
  have h2 : ¬ OccursIn fence3S (pyStrip p) := fun ho => hocc (occursIn_pyStrip ho)
  rw [fenceStage_no_fence h2]

theorem fenced_json_equals_bare_witness :
    (parseJson payloadPlain).isSome = true ∧
    containsSub fence3S payloadPlain = false ∧
    parseFlashcardResponse (fenceWrap payloadPlain) = parseFlashcardResponse payloadPlain :=
  ⟨by decide, by decide, fenced_json_equals_bare payloadPlain (by decide) (by decide)⟩

/-- Claim C7 counterexample: when the surrounding prose itself holds fence
markers, extraction of the prose-wrapped payload is empty while extraction of
the substring between the first brace and the last brace yields one card, so
the claimed equality fails. -/
theorem prose_wrap_differs_on_ticked_prose :
    (parseJson payloadPlain).isSome = true ∧
    findSub braceOpenS (pyStrip proseTicked) = some 6 ∧
    rfindSub braceCloseS (pyStrip proseTicked) = some 51 ∧
    pySlice 6 (51 + 1) (pyStrip proseTicked) = payloadPlain ∧
    parseFlashcardResponse proseTicked = [] ∧
    parseFlashcardResponse (pySlice 6 (51 + 1) (pyStrip proseTicked)) =
      [⟨lc "q", lc "a"⟩] ∧
    parseFlashcardResponse proseTicked ≠
      parseFlashcardResponse (pySlice 6 (51 + 1) (pyStrip proseTicked)) :=
  ⟨by decide, by decide, by decide, by decide, by decide, by decide, by decide⟩

/-- Claim C7 (amended): whenever the stripped working text holds no fence
marker, does not itself begin with a brace (there is prose before the
payload), and has a first brace strictly before its last closing brace,
extraction of the whole text equals extraction of the substring between the
first brace and the last closing brace inclusive. -/
theorem prose_wrapped_equals_brace_substring (w : List Char) (a b : Nat)
    (hf : containsSub fence3S (pyStrip w) = false)
    (hsw : startsWithBrace (pyStrip w) = false)
    (hfa : findSub braceOpenS (pyStrip w) = some a)
    (hfb : rfindSub braceCloseS (pyStrip w) = some b)
    (hab : a < b) :
    parseFlashcardResponse w = parseFlashcardResponse (pySlice a (b + 1) (pyStrip w)) := by
  have hocc : ¬ OccursIn fence3S (pyStrip w) := by
    intro ho
    have hx := (findSub_isSome_iff fence3S (pyStrip w)).2 ho
    simp [containsSub, hx] at hf
  have hfs : fenceStage (pyStrip w) = pyStrip w := fenceStage_no_fence hocc
  have hbs : braceStage (pyStrip w) = pySlice a (b + 1) (pyStrip w) := by
    unfold braceStage
    rw [if_neg (by simp [hsw]), hfa, hfb]
    dsimp only
    rw [if_pos hab]
  have hpa : [lbraceC].isPrefixOf ((pyStrip w).drop a) = true := findSub_some_pref hfa
  have hpb : [rbraceC].isPrefixOf ((pyStrip w).drop b) = true := rfindSub_some_pref hfb
  obtain ⟨restA, hA⟩ := singleton_pref hpa
  obtain ⟨restB, hB⟩ := singleton_pref hpb
  have hblen : b < (pyStrip w).length := by
    by_contra hle
    rw [List.drop_eq_nil_of_le (Nat.le_of_not_lt hle)] at hB
    simp at hB
  have hsplit : (pyStrip w).drop a =
      List.take (b - a) ((pyStrip w).drop a) ++ (rbraceC :: restB) := by
    conv_lhs => rw [← List.take_append_drop (b - a) ((pyStrip w).drop a)]
    congr 1
    rw [List.drop_drop]
    have hba : a + (b - a) = b := by omega
    rw [hba, hB]
  have hXlen : (List.take (b - a) ((pyStrip w).drop a)).length = b - a := by
    simp only [List.length_take, List.length_drop]
    omega
  have htX : pySlice a (b + 1) (pyStrip w) =
      List.take (b - a) ((pyStrip w).drop a) ++ [rbraceC] := by
    unfold pySlice
    conv_lhs => rw [hsplit]
    have he : b + 1 - a = (List.take (b - a) ((pyStrip w).drop a)).length + 1 := by
      rw [hXlen]; omega
    rw [he, List.take_append]
    simp
  obtain ⟨m, hm⟩ : ∃ m, b - a = m + 1 := ⟨b - a - 1, by omega⟩
  have ht2 : pySlice a (b + 1) (pyStrip w) = lbraceC :: (List.take m restA ++ [rbraceC]) := by
    rw [htX, hA, hm, List.take_succ_cons]
    simp
  have hstrip : pyStrip (pySlice a (b + 1) (pyStrip w)) = pySlice a (b + 1) (pyStrip w) := by
    have hh : (pySlice a (b + 1) (pyStrip w)).head? = some lbraceC := by rw [ht2]; rfl
    have hl : (pySlice a (b + 1) (pyStrip w)).getLast? = some rbraceC := by
      rw [htX, List.getLast?_append]
      rfl
    exact pyStrip_noop hh (by decide) hl (by decide)
  have hocc_t : ¬ OccursIn fence3S (pySlice a (b + 1) (pyStrip w)) :=
    fun ho => hocc (occursIn_pySlice ho)
  have hbst : braceStage (pySlice a (b + 1) (pyStrip w)) = pySlice a (b + 1) (pyStrip w) := by
    unfold braceStage
    rw [if_pos]
    rw [ht2]
    simp [startsWithBrace, braceOpenS, List.isPrefixOf]
  unfold parseFlashcardResponse
  rw [hfs, hbs, hstrip, fenceStage_no_fence hocc_t, hbst]

theorem prose_wrapped_equals_brace_substring_witness :
    containsSub fence3S (pyStrip proseWrapped) = false ∧
    startsWithBrace (pyStrip proseWrapped) = false ∧
    findSub braceOpenS (pyStrip proseWrapped) = some 13 ∧
    rfindSub braceCloseS (pyStrip proseWrapped) = some 58 ∧
    13 < 58 ∧
    parseFlashcardResponse proseWrapped =
      parseFlashcardResponse (pySlice 13 (58 + 1) (pyStrip proseWrapped)) :=
  ⟨by decide, by decide, by decide, by decide, by decide,
    prose_wrapped_equals_brace_substring proseWrapped 13 58 (by decide) (by decide)
      (by decide) (by decide) (by decide)⟩
